import Mathlib

/-!
Shallow embedding of the wikichat processing pipeline (`scripts/process.py`)
and verification of its specified behaviour.  Pure data flow is modelled by
explicit state passing; the document store and embedding service are
environment parameters (response oracles).
-/

set_option autoImplicit false

namespace WikiChat

/-! ### Data model (scripts/model.py shapes used by process.py) -/

structure ArticleMetadata where
  url : String
  title : String
deriving DecidableEq, Repr

structure Article where
  metadata : ArticleMetadata
  content : String
deriving DecidableEq, Repr

structure ChunkMetadata where
  index : Nat
  length : Nat
  hash : String
deriving DecidableEq, Repr

structure Chunk where
  content : String
  metadata : ChunkMetadata
deriving DecidableEq, Repr

structure ChunkedArticle where
  article : Article
  chunks : List Chunk
deriving DecidableEq, Repr

/-! ### Python `dict` model: insertion-ordered association list -/

def dictHasKey {β : Type} (d : List (String × β)) (k : String) : Bool :=
  d.any (fun p => p.1 == k)

def dictInsert {β : Type} (d : List (String × β)) (k : String) (v : β) :
    List (String × β) :=
  if dictHasKey d k then d.map (fun p => if p.1 == k then (k, v) else p)
  else d ++ [(k, v)]

def dictOf {β : Type} (l : List (String × β)) : List (String × β) :=
  l.foldl (fun d p => dictInsert d p.1 p.2) []

def dictValues {β : Type} (d : List (String × β)) : List β :=
  d.map (·.2)

def dictFind {β : Type} (d : List (String × β)) (k : String) : Option β :=
  (d.find? (fun p => p.1 == k)).map (·.2)

/-! ### Per-article unit snapshot -/

structure ChunkedArticleMetadataOnly where
  _id : String
  chunks_metadata : List (String × ChunkMetadata)
deriving DecidableEq, Repr

/-- Modelled from the spec: `ChunkedArticleMetadataOnly.from_chunked_article` lives
in `scripts/model.py`, which is not under `src/`.  Per §3 a UnitSnapshot is, for one
content item, "the mapping `hash → unit metadata`" of its units, keyed by item
identity (the URL). -/
def ChunkedArticleMetadataOnly.from_chunked_article (a : ChunkedArticle) :
    ChunkedArticleMetadataOnly :=
  { _id := a.article.metadata.url
    chunks_metadata := dictOf (a.chunks.map (fun c => (c.metadata.hash, c.metadata))) }

structure ChunkedArticleDiff where
  chunked_article : ChunkedArticle
  new_chunks : List Chunk
  deleted_chunks : List ChunkMetadata := []
  unchanged_chunks : List Chunk := []
deriving DecidableEq, Repr

/-- `calc_chunk_diff` from `scripts/process.py`, with the store read made explicit:
`prev_metadata_doc` is what `METADATA_COLLECTION.find_one` returned (`none` when no
previous snapshot document exists). -/
def calc_chunk_diff (chunked_article : ChunkedArticle)
    (prev_metadata_doc : Option ChunkedArticleMetadataOnly) : ChunkedArticleDiff :=
  let new_metadata := ChunkedArticleMetadataOnly.from_chunked_article chunked_article
  match prev_metadata_doc with
  | none =>
      { chunked_article := chunked_article
        new_chunks := chunked_article.chunks }
  | some prev_metadata =>
      { chunked_article := chunked_article
        new_chunks := chunked_article.chunks.filter
          (fun c => !(dictHasKey prev_metadata.chunks_metadata c.metadata.hash))
        deleted_chunks := (dictValues prev_metadata.chunks_metadata).filter
          (fun m => !(dictHasKey new_metadata.chunks_metadata m.hash))
        unchanged_chunks := chunked_article.chunks.filter
          (fun c => dictHasKey prev_metadata.chunks_metadata c.metadata.hash) }

/-- The hashes of a list of chunks, in order. -/
def hashesOf (l : List Chunk) : List String :=
  l.map (fun c => c.metadata.hash)

/-! ### Dict lemmas -/

theorem dictHasKey_iff_mem {β : Type} (d : List (String × β)) (k : String) :
    dictHasKey d k = true ↔ k ∈ d.map Prod.fst := by
  unfold dictHasKey
  rw [List.any_eq_true]
  constructor
  · rintro ⟨p, hp, hb⟩
    exact List.mem_map.mpr ⟨p, hp, eq_of_beq hb⟩
  · intro hmem
    rcases List.mem_map.mp hmem with ⟨p, hp, he⟩
    exact ⟨p, hp, by simp [he]⟩

theorem dictHasKey_eq_decide {β : Type} (d : List (String × β)) (k : String) :
    dictHasKey d k = decide (k ∈ d.map Prod.fst) := by
  have h := dictHasKey_iff_mem d k
  cases hk : dictHasKey d k
  · have : ¬ k ∈ d.map Prod.fst := by rw [← h]; simp [hk]
    simp [this]
  · have : k ∈ d.map Prod.fst := h.mp hk
    simp [this]

theorem not_dictHasKey_eq_decide {β : Type} (d : List (String × β)) (k : String) :
    (!dictHasKey d k) = decide (k ∉ d.map Prod.fst) := by
  rw [dictHasKey_eq_decide, ← decide_not]

theorem dictHasKey_dictInsert {β : Type} (d : List (String × β)) (k k' : String)
    (v : β) :
    dictHasKey (dictInsert d k v) k' = (dictHasKey d k' || (k == k')) := by
  unfold dictInsert dictHasKey
  by_cases h : d.any (fun p => p.1 == k) = true
  · rw [if_pos h, List.any_map]
    have hfun : ((fun p : String × β => p.1 == k') ∘
        fun p => if p.1 == k then (k, v) else p)
          = fun (p : String × β) => p.1 == k' := by
      funext p
      by_cases hp : (p.1 == k) = true
      · simp [Function.comp, hp, eq_of_beq hp]
      · simp [Function.comp, hp]
    rw [hfun]
    cases hb : (k == k')
    · simp
    · have hk : k = k' := eq_of_beq hb
      subst hk
      simp [h]
  · rw [if_neg h]
    simp [List.any_append]

theorem dictHasKey_dictOf {β : Type} (l : List (String × β)) (k : String) :
    dictHasKey (dictOf l) k = l.any (fun p => p.1 == k) := by
  suffices h : ∀ d : List (String × β),
      dictHasKey (l.foldl (fun d p => dictInsert d p.1 p.2) d) k
        = (dictHasKey d k || l.any (fun p => p.1 == k)) by
    have := h []
    simpa [dictOf, dictHasKey] using this
  induction l with
  | nil => intro d; simp
  | cons p l ih =>
      intro d
      simp only [List.foldl_cons, List.any_cons]
      rw [ih, dictHasKey_dictInsert]
      cases dictHasKey d k <;> cases hp : (p.1 == k) <;> simp

theorem dictHasKey_from_chunked_article (a : ChunkedArticle) (h : String) :
    dictHasKey (ChunkedArticleMetadataOnly.from_chunked_article a).chunks_metadata h
      = true ↔ h ∈ hashesOf a.chunks := by
  unfold ChunkedArticleMetadataOnly.from_chunked_article hashesOf
  rw [dictHasKey_dictOf, List.any_eq_true]
  constructor
  · rintro ⟨p, hp, hb⟩
    rcases List.mem_map.mp hp with ⟨c, hc, rfl⟩
    exact List.mem_map.mpr ⟨c, hc, eq_of_beq hb⟩
  · intro hmem
    rcases List.mem_map.mp hmem with ⟨c, hc, he⟩
    exact ⟨(c.metadata.hash, c.metadata), List.mem_map.mpr ⟨c, hc, rfl⟩, by simp [he]⟩

theorem dictHasKey_from_chunked_article_eq_decide (a : ChunkedArticle) (h : String) :
    dictHasKey (ChunkedArticleMetadataOnly.from_chunked_article a).chunks_metadata h
      = decide (h ∈ hashesOf a.chunks) := by
  have hm := dictHasKey_from_chunked_article a h
  cases hk : dictHasKey
      (ChunkedArticleMetadataOnly.from_chunked_article a).chunks_metadata h
  · have : ¬ h ∈ hashesOf a.chunks := by rw [← hm]; simp [hk]
    simp [this]
  · have : h ∈ hashesOf a.chunks := hm.mp hk
    simp [this]

/-! ### C1 -/

/-- C1: `calc_chunk_diff` partitions by hash membership: `new_chunks` are exactly the
current chunks whose hash is not a key of the previous snapshot, `deleted_chunks` are
exactly the previous snapshot's entries whose hash is not among the current chunks'
hashes, `unchanged_chunks` are exactly the current chunks whose hash is a key of the
previous snapshot; and when no previous snapshot document exists, every current chunk
is in `new_chunks` while `deleted_chunks` and `unchanged_chunks` are empty. -/
theorem C1_calc_chunk_diff_partition (a : ChunkedArticle)
    (prev : ChunkedArticleMetadataOnly) :
    ((calc_chunk_diff a (some prev)).new_chunks
        = a.chunks.filter
            (fun c => decide (c.metadata.hash ∉ prev.chunks_metadata.map Prod.fst)))
    ∧ ((calc_chunk_diff a (some prev)).deleted_chunks
        = (dictValues prev.chunks_metadata).filter
            (fun m => decide (m.hash ∉ hashesOf a.chunks)))
    ∧ ((calc_chunk_diff a (some prev)).unchanged_chunks
        = a.chunks.filter
            (fun c => decide (c.metadata.hash ∈ prev.chunks_metadata.map Prod.fst)))
    ∧ (calc_chunk_diff a none).new_chunks = a.chunks
    ∧ (calc_chunk_diff a none).deleted_chunks = []
    ∧ (calc_chunk_diff a none).unchanged_chunks = [] := by
  refine ⟨?_, ?_, ?_, rfl, rfl, rfl⟩
  · show a.chunks.filter _ = _
    exact List.filter_congr
      (fun c _ => not_dictHasKey_eq_decide prev.chunks_metadata c.metadata.hash)
  · show (dictValues prev.chunks_metadata).filter _ = _
    refine List.filter_congr (fun m _ => ?_)
    show (!dictHasKey _ m.hash) = _
    rw [dictHasKey_from_chunked_article_eq_decide, ← decide_not]
  · show a.chunks.filter _ = _
    exact List.filter_congr
      (fun c _ => dictHasKey_eq_decide prev.chunks_metadata c.metadata.hash)

/-! ### C2 -/

theorem length_filter_add_length_filter_not {α : Type} (l : List α) (p : α → Bool) :
    (l.filter p).length + (l.filter (fun a => !p a)).length = l.length := by
  induction l with
  | nil => rfl
  | cons a l ih =>
      cases hp : p a <;> simp [List.filter_cons, hp] <;> omega

theorem filter_mem_length_comm {α : Type} [DecidableEq α] (xs ys : List α)
    (hxs : xs.Nodup) (hys : ys.Nodup) :
    (xs.filter (fun x => decide (x ∈ ys))).length
      = (ys.filter (fun y => decide (y ∈ xs))).length := by
  have h1 : ∀ (as bs : List α), as.Nodup →
      (as.filter (fun x => decide (x ∈ bs))).length
        = (as.toFinset ∩ bs.toFinset).card := by
    intro as bs ha
    have hnd : (as.filter (fun x => decide (x ∈ bs))).Nodup := ha.filter _
    rw [← List.toFinset_card_of_nodup hnd, List.toFinset_filter]
    congr 1
    rw [← Finset.filter_mem_eq_inter]
    apply Finset.filter_congr
    intro x _
    simp
  rw [h1 xs ys hxs, h1 ys xs hys, Finset.inter_comm]

/-- C2 fails as stated: two current chunks may share one hash (identical chunk text),
and the code then counts both of them as unchanged against a single snapshot entry,
so `|deleted_chunks| + |unchanged_chunks| ≠ |previous snapshot entries|`. -/
theorem C2_counterexample :
    ¬ ((calc_chunk_diff
          { article := { metadata := { url := "u", title := "t" }, content := "ab" }
            chunks := [{ content := "a", metadata := { index := 0, length := 1, hash := "h" } },
                       { content := "a", metadata := { index := 1, length := 1, hash := "h" } }] }
          (some { _id := "u"
                  chunks_metadata :=
                    [("h", { index := 0, length := 1, hash := "h" })] })).deleted_chunks.length
        + (calc_chunk_diff
          { article := { metadata := { url := "u", title := "t" }, content := "ab" }
            chunks := [{ content := "a", metadata := { index := 0, length := 1, hash := "h" } },
                       { content := "a", metadata := { index := 1, length := 1, hash := "h" } }] }
          (some { _id := "u"
                  chunks_metadata :=
                    [("h", { index := 0, length := 1, hash := "h" })] })).unchanged_chunks.length
        = 1) := by
  decide

/-- C2 (amended): when the current chunks' hashes are pairwise distinct, the diff
returned by `calc_chunk_diff` satisfies `|new| + |unchanged| = |current|`,
`|deleted| + |unchanged| = |previous snapshot entries|`, and no hash occurs both in
`new_chunks` and in `unchanged_chunks`.  The snapshot side assumes the stored
document is a genuine map from hash to metadata (keys are distinct and each entry is
keyed by its own hash), which is how every snapshot is built. -/
theorem C2_diff_counts (a : ChunkedArticle) (prev : ChunkedArticleMetadataOnly)
    (hwf : ∀ p ∈ prev.chunks_metadata, (p.2).hash = p.1)
    (hkeys : (prev.chunks_metadata.map Prod.fst).Nodup)
    (hcur : (hashesOf a.chunks).Nodup) :
    ((calc_chunk_diff a (some prev)).new_chunks.length
        + (calc_chunk_diff a (some prev)).unchanged_chunks.length
      = a.chunks.length)
    ∧ ((calc_chunk_diff a (some prev)).deleted_chunks.length
        + (calc_chunk_diff a (some prev)).unchanged_chunks.length
      = prev.chunks_metadata.length)
    ∧ (∀ h, h ∈ hashesOf (calc_chunk_diff a (some prev)).new_chunks →
        h ∉ hashesOf (calc_chunk_diff a (some prev)).unchanged_chunks) := by
  obtain ⟨hnew, hdel, hunch, -, -, -⟩ := C1_calc_chunk_diff_partition a prev
  refine ⟨?_, ?_, ?_⟩
  · rw [hnew, hunch]
    have heq : a.chunks.filter
        (fun c => decide (c.metadata.hash ∉ prev.chunks_metadata.map Prod.fst))
          = a.chunks.filter
        (fun c => !decide (c.metadata.hash ∈ prev.chunks_metadata.map Prod.fst)) :=
      List.filter_congr (fun c _ => by rw [decide_not])
    rw [heq, Nat.add_comm]
    exact length_filter_add_length_filter_not a.chunks
      (fun c => decide (c.metadata.hash ∈ prev.chunks_metadata.map Prod.fst))
  · rw [hdel, hunch]
    set keys := prev.chunks_metadata.map Prod.fst with hkeysdef
    set cur := hashesOf a.chunks with hcurdef
    have hdel' : ((dictValues prev.chunks_metadata).filter
        (fun m => decide (m.hash ∉ cur))).length
          = (keys.filter (fun k => decide (k ∉ cur))).length := by
      rw [← List.countP_eq_length_filter, ← List.countP_eq_length_filter,
        hkeysdef, List.countP_map]
      unfold dictValues
      rw [List.countP_map]
      apply List.countP_congr
      intro p hp
      simp [Function.comp, hwf p hp]
    have hunch' : (a.chunks.filter
        (fun c => decide (c.metadata.hash ∈ keys))).length
          = (cur.filter (fun h => decide (h ∈ keys))).length := by
      rw [← List.countP_eq_length_filter, ← List.countP_eq_length_filter,
        hcurdef]
      unfold hashesOf
      rw [List.countP_map]
      rfl
    rw [hdel', hunch', filter_mem_length_comm cur keys hcur hkeys]
    have hsplit := length_filter_add_length_filter_not keys
      (fun k => decide (k ∈ cur))
    have hnotf : (keys.filter (fun k => !decide (k ∈ cur)))
        = keys.filter (fun k => decide (k ∉ cur)) := by
      congr 1
      funext k
      rw [← decide_not]
    rw [hnotf] at hsplit
    have hlen : keys.length = prev.chunks_metadata.length := by
      rw [hkeysdef, List.length_map]
    rw [← hlen, ← hsplit, Nat.add_comm]
  · intro h hn hu
    rw [hnew] at hn
    rw [hunch] at hu
    unfold hashesOf at hn hu
    rcases List.mem_map.mp hn with ⟨c, hc, rfl⟩
    rcases List.mem_map.mp hu with ⟨c', hc', he'⟩
    rcases List.mem_filter.mp hc with ⟨-, hcb⟩
    rcases List.mem_filter.mp hc' with ⟨-, hcb'⟩
    rw [he'] at hcb'
    simp only [decide_eq_true_eq] at hcb hcb'
    exact hcb hcb'

/-- Witness for C2: a concrete article with two distinct-hash chunks against a
one-entry snapshot sharing the second hash. -/
theorem C2_diff_counts_witness :
    ((calc_chunk_diff
        { article := { metadata := { url := "u", title := "t" }, content := "ab" }
          chunks := [{ content := "a", metadata := { index := 0, length := 1, hash := "h1" } },
                     { content := "b", metadata := { index := 1, length := 1, hash := "h2" } }] }
        (some { _id := "u"
                chunks_metadata :=
                  [("h2", { index := 5, length := 1, hash := "h2" })] })).deleted_chunks.length
      + (calc_chunk_diff
        { article := { metadata := { url := "u", title := "t" }, content := "ab" }
          chunks := [{ content := "a", metadata := { index := 0, length := 1, hash := "h1" } },
                     { content := "b", metadata := { index := 1, length := 1, hash := "h2" } }] }
        (some { _id := "u"
                chunks_metadata :=
                  [("h2", { index := 5, length := 1, hash := "h2" })] })).unchanged_chunks.length
      = 1) :=
  (C2_diff_counts
    { article := { metadata := { url := "u", title := "t" }, content := "ab" }
      chunks := [{ content := "a", metadata := { index := 0, length := 1, hash := "h1" } },
                 { content := "b", metadata := { index := 1, length := 1, hash := "h2" } }] }
    { _id := "u"
      chunks_metadata := [("h2", { index := 5, length := 1, hash := "h2" })] }
    (by decide) (by decide) (by decide)).2.1

/-! ### Vectorization (vectorize_diff) -/

structure VectoredChunk where
  vector : List Int
  chunked_article : ChunkedArticle
  chunk : Chunk
deriving DecidableEq, Repr

structure VectoredChunkedArticleDiff where
  chunked_article : ChunkedArticle
  new_chunks : List VectoredChunk
  deleted_chunks : List ChunkMetadata
deriving DecidableEq, Repr

/-- `vectorize_diff` from `scripts/process.py`.  The embedding service is the
environment parameter `get_embeddings` (per §6, `embed(list of unit texts) → list
of vectors`). -/
def vectorize_diff (get_embeddings : List String → List (List Int))
    (article_diff : ChunkedArticleDiff) : VectoredChunkedArticleDiff :=
  let vectors := get_embeddings (article_diff.new_chunks.map (fun c => c.content))
  { chunked_article := article_diff.chunked_article
    new_chunks := (vectors.zip article_diff.new_chunks).map
      (fun p => { vector := p.1
                  chunked_article := article_diff.chunked_article
                  chunk := p.2 })
    deleted_chunks := article_diff.deleted_chunks }

/-! ### Batching -/

def batchListAux {α : Type} (n : Nat) : Nat → List α → List (List α)
  | _, [] => []
  | 0, _ :: _ => []
  | fuel + 1, x :: xs => ((x :: xs).take n) :: batchListAux n fuel ((x :: xs).drop n)

/-- Modelled from the spec: `utils.batch_list` lives in `scripts/utils.py`, which is
not under `src/`.  Per §4.3 and §8 it partitions a list into consecutive fixed-size
batches, the last batch holding the remainder (45 units at size 20 give batches of
20, 20, 5).  Fuel-based recursion on the list length. -/
def batch_list {α : Type} (xs : List α) (batch_size : Nat) : List (List α) :=
  batchListAux batch_size xs.length xs

/-! ### Embedding documents and the insert stage -/

structure EmbeddingDocument where
  _id : String
  vector : List Int
  content : String
deriving DecidableEq, Repr

/-- Modelled from the spec: `EmbeddingDocument.from_vectored_chunk` lives in
`scripts/model.py`, which is not under `src/`.  Per §3 the stored document is keyed
by the unit's content-address and carries its vector payload. -/
def EmbeddingDocument.from_vectored_chunk (v : VectoredChunk) : EmbeddingDocument :=
  { _id := v.chunk.metadata.hash
    vector := v.vector
    content := v.chunk.content }

/-- An `EmbeddingDocument` as logged by the existing-chunks logger: the record with
the `$vector` field popped. -/
structure LoggedDocument where
  _id : String
  content : String
deriving DecidableEq, Repr

def stripVector (d : EmbeddingDocument) : LoggedDocument :=
  { _id := d._id, content := d.content }

structure ApiError where
  errorCode : String
  message : String
deriving DecidableEq, Repr

def dupCode : String := "DOCUMENT_ALREADY_EXISTS"

/-- The document store's reply to one `insert_many` call (per §6:
`{insertedIds, errors}`). -/
structure InsertResp where
  insertedIds : List String
  errors : List ApiError
deriving DecidableEq, Repr

structure Metrics where
  chunk_collision : Nat := 0
  chunks_inserted : Nat := 0
  chunks_deleted : Nat := 0
  articles_inserted : Nat := 0
  articles_read : Nat := 0
deriving DecidableEq, Repr

/-- Modelled from the spec: the rolling RecentItemsRegistry (§3), a bounded,
recency-ordered view; `RECENT_ARTICLES.update_and_clone` lives in
`scripts/model.py`, which is not under `src/`. -/
structure RecentArticles where
  _id : String
  article_urls : List String
  max_size : Nat
deriving DecidableEq, Repr

/-- Modelled from the spec: folds one item's summary into the registry (most recent
first, bounded size) and returns the folded snapshot. -/
def RecentArticles.update_and_clone (r : RecentArticles)
    (m : ChunkedArticleMetadataOnly) : RecentArticles :=
  { r with article_urls :=
      (m._id :: r.article_urls.filter (fun u => u != m._id)).take r.max_size }

/-- The observable state touched by the store stage: the two metadata collections,
the in-memory rolling registry, the metrics sink, the existing-chunks log, and the
requests issued to the embedding collection. -/
structure World where
  metadata_collection : List (String × ChunkedArticleMetadataOnly)
  suggestions_collection : List (String × RecentArticles)
  recent_articles : RecentArticles
  metrics : Metrics
  logged : List LoggedDocument
  submitted : List (List EmbeddingDocument)
  delete_requests : List (List String)
deriving DecidableEq, Repr

/-- One iteration of the batch loop in `insert_vectored_chunks`: submit the batch,
tolerate `DOCUMENT_ALREADY_EXISTS` errors (count them, log the colliding documents
with the vector stripped), and abort with the complete error payload when any other
error is present. -/
def processInsertBatch (w : World) (docs : List EmbeddingDocument)
    (resp : InsertResp) : World × Option (List ApiError) :=
  let w := { w with submitted := w.submitted ++ [docs] }
  let errors := resp.errors
  let exists_errors := errors.filter (fun e => e.errorCode == dupCode)
  let w :=
    if exists_errors.isEmpty then w
    else
      { w with
        metrics := { w.metrics with
          chunk_collision := w.metrics.chunk_collision + exists_errors.length }
        logged := w.logged ++
          (docs.filter (fun d => !(resp.insertedIds.contains d._id))).map stripVector }
  if errors.length != exists_errors.length then (w, some errors) else (w, none)

def insertLoopAux (oracle : Nat → List EmbeddingDocument → InsertResp) :
    Nat → World → List (List VectoredChunk) → World × Option (List ApiError)
  | _, w, [] => (w, none)
  | i, w, batch :: rest =>
      let docs := batch.map EmbeddingDocument.from_vectored_chunk
      match processInsertBatch w docs (oracle i docs) with
      | (w', some errs) => (w', some errs)
      | (w', none) => insertLoopAux oracle (i + 1) w' rest

/-- `insert_vectored_chunks` from `scripts/process.py`: batches of 20, one unordered
bulk insert per batch (the store's reply to the i-th batch is `oracle i docs`), and
the `chunks_inserted` metric bumped once at the end of a successful run. -/
def insert_vectored_chunks (oracle : Nat → List EmbeddingDocument → InsertResp)
    (w : World) (vectored_chunks : List VectoredChunk) :
    World × Option (List ApiError) :=
  match insertLoopAux oracle 0 w (batch_list vectored_chunks 20) with
  | (w', none) =>
      ({ w' with metrics := { w'.metrics with
          chunks_inserted := w'.metrics.chunks_inserted + vectored_chunks.length } },
        none)
  | (w', some e) => (w', some e)

/-- Modelled from the spec §6: the document store's unordered `insert_many` with
per-document failure reporting.  Documents whose key is already present yield a
`DOCUMENT_ALREADY_EXISTS` error; every other document is inserted and reported in
`insertedIds`.  Returns the store contents after the call together with the reply. -/
def storeInsertMany (store : List String) (docs : List EmbeddingDocument) :
    List String × InsertResp :=
  docs.foldl
    (fun acc d =>
      if acc.1.contains d._id then
        (acc.1, { acc.2 with
          errors := acc.2.errors ++ [{ errorCode := dupCode, message := d._id }] })
      else
        (acc.1 ++ [d._id], { acc.2 with
          insertedIds := acc.2.insertedIds ++ [d._id] }))
    (store, { insertedIds := [], errors := [] })

/-- A fully successful store: every document inserted, no errors. -/
def okOracle : Nat → List EmbeddingDocument → InsertResp :=
  fun _ docs => { insertedIds := docs.map (·._id), errors := [] }

/-! ### Delete stage and metadata upsert -/

/-- `delete_vectored_chunks` from `scripts/process.py`: one `delete_many` request
per batch of 20 chunk hashes, then the `chunks_deleted` metric. -/
def delete_vectored_chunks (w : World) (chunks : List ChunkMetadata) : World :=
  let w := (batch_list chunks 20).foldl
    (fun w batch =>
      { w with delete_requests := w.delete_requests ++ [batch.map (·.hash)] }) w
  { w with metrics :=
      { w.metrics with chunks_deleted := w.metrics.chunks_deleted + chunks.length } }

/-- Modelled from the spec: `ChunkedArticleMetadataOnly.from_vectored_diff` lives in
`scripts/model.py`, which is not under `src/`.  Per §4.3 the metadata upsert stores
the full current set of unit hashes and metadata for the item, i.e. the snapshot of
the diff's chunked article. -/
def ChunkedArticleMetadataOnly.from_vectored_diff
    (vd : VectoredChunkedArticleDiff) : ChunkedArticleMetadataOnly :=
  ChunkedArticleMetadataOnly.from_chunked_article vd.chunked_article

/-- `update_article_metadata` from `scripts/process.py`: find-one-and-replace with
upsert on the metadata collection, then fold the item into the rolling registry and
find-one-and-replace with upsert on the suggestions collection, then the
`articles_inserted` metric. -/
def update_article_metadata (w : World) (vectored_diff : VectoredChunkedArticleDiff) :
    World :=
  let new_metadata := ChunkedArticleMetadataOnly.from_vectored_diff vectored_diff
  let w := { w with
    metadata_collection := dictInsert w.metadata_collection new_metadata._id new_metadata }
  let recent_articles := w.recent_articles.update_and_clone new_metadata
  let w := { w with
    recent_articles := recent_articles
    suggestions_collection := dictInsert w.suggestions_collection recent_articles._id recent_articles }
  { w with metrics :=
      { w.metrics with articles_inserted := w.metrics.articles_inserted + 1 } }

/-- `store_article_diff` from `scripts/process.py`: insert the new chunks, delete
the removed ones, upsert the metadata, and hand the diff on unchanged.  A failing
insert aborts the stage with the error payload. -/
def store_article_diff (oracle : Nat → List EmbeddingDocument → InsertResp)
    (w : World) (article_diff : VectoredChunkedArticleDiff) :
    World × Except (List ApiError) VectoredChunkedArticleDiff :=
  match insert_vectored_chunks oracle w article_diff.new_chunks with
  | (w1, some e) => (w1, Except.error e)
  | (w1, none) =>
      let w2 := delete_vectored_chunks w1 article_diff.deleted_chunks
      let w3 := update_article_metadata w2 article_diff
      (w3, Except.ok article_diff)

/-! ### Pipeline admission -/

structure AsyncPipeline where
  max_items : Nat
  admitted : List ArticleMetadata
deriving DecidableEq, Repr

/-- Modelled from the spec: `AsyncPipeline.put_to_first_step` lives in
`scripts/pipeline.py`, which is not under `src/`.  Per §4.1 admission keeps a
monotonically increasing admitted-item counter and returns `false` once it reaches
the configured cap, admitting nothing further. -/
def put_to_first_step (p : AsyncPipeline) (m : ArticleMetadata) :
    AsyncPipeline × Bool :=
  if p.admitted.length < p.max_items then
    ({ p with admitted := p.admitted ++ [m] }, true)
  else (p, false)

/-- `process_article_metadata` from `scripts/process.py`: feed items in list order,
stop and return `False` on the first declined admission, return `True` when every
item was admitted. -/
def process_article_metadata (p : AsyncPipeline) :
    List ArticleMetadata → AsyncPipeline × Bool
  | [] => (p, true)
  | m :: ms =>
      match put_to_first_step p m with
      | (p', true) => process_article_metadata p' ms
      | (p', false) => (p', false)

/-- Modelled from the spec: per §4.1 already-admitted items continue through the
stages to the Completed state regardless of the cap, so the items a run completes
are exactly the items it admitted. -/
def completedItems (p : AsyncPipeline) : List ArticleMetadata :=
  p.admitted

/-! ### Batching lemmas and C5 -/

theorem batchListAux_nil {α : Type} (n fuel : Nat) :
    batchListAux n fuel ([] : List α) = [] := by
  cases fuel <;> rfl

theorem batchListAux_flatten {α : Type} (n : Nat) (hn : 0 < n) :
    ∀ (fuel : Nat) (xs : List α), xs.length ≤ fuel →
      (batchListAux n fuel xs).flatten = xs := by
  intro fuel
  induction fuel with
  | zero =>
      intro xs h
      have hx : xs = [] := List.length_eq_zero.mp (Nat.le_zero.mp h)
      subst hx
      rfl
  | succ fuel ih =>
      intro xs h
      cases xs with
      | nil => rfl
      | cons x xs =>
          have hle : ((x :: xs).drop n).length ≤ fuel := by
            rw [List.length_drop, List.length_cons]
            simp only [List.length_cons] at h
            omega
          show (((x :: xs).take n) :: batchListAux n fuel ((x :: xs).drop n)).flatten
            = x :: xs
          rw [List.flatten_cons, ih ((x :: xs).drop n) hle, List.take_append_drop]

theorem batchListAux_sizes {α : Type} (n : Nat) (hn : 0 < n) :
    ∀ (fuel : Nat) (xs : List α), xs.length ≤ fuel →
      ∀ b ∈ batchListAux n fuel xs, 0 < b.length ∧ b.length ≤ n := by
  intro fuel
  induction fuel with
  | zero =>
      intro xs h
      have hx : xs = [] := List.length_eq_zero.mp (Nat.le_zero.mp h)
      subst hx
      intro b hb
      simp [batchListAux_nil] at hb
  | succ fuel ih =>
      intro xs h
      cases xs with
      | nil => intro b hb; simp [batchListAux_nil] at hb
      | cons x xs =>
          intro b hb
          rcases List.mem_cons.mp hb with hb | hb
          · subst hb
            rw [List.length_take]
            constructor
            · simp [Nat.lt_min, hn]
            · exact Nat.min_le_left _ _
          · refine ih ((x :: xs).drop n) ?_ b hb
            rw [List.length_drop, List.length_cons]
            simp only [List.length_cons] at h
            omega

theorem batchListAux_dropLast_sizes {α : Type} (n : Nat) :
    ∀ (fuel : Nat) (xs : List α),
      ∀ b ∈ (batchListAux n fuel xs).dropLast, b.length = n := by
  intro fuel
  induction fuel with
  | zero =>
      intro xs b hb
      cases xs <;> simp [batchListAux] at hb
  | succ fuel ih =>
      intro xs b hb
      cases xs with
      | nil => simp [batchListAux] at hb
      | cons x xs =>
          have hb' : b ∈ (((x :: xs).take n)
              :: batchListAux n fuel ((x :: xs).drop n)).dropLast := hb
          by_cases hrest : batchListAux n fuel ((x :: xs).drop n) = []
          · rw [hrest] at hb'
            simp [List.dropLast] at hb'
          · rw [List.dropLast_cons_of_ne_nil hrest] at hb'
            rcases List.mem_cons.mp hb' with hb | hb
            · subst hb
              have hdrop : (x :: xs).drop n ≠ [] := by
                intro hd
                exact hrest (by rw [hd]; exact batchListAux_nil n fuel)
              have hlen : n < (x :: xs).length := by
                by_contra hle
                push_neg at hle
                exact hdrop (List.drop_eq_nil_of_le hle)
              rw [List.length_take]
              omega
            · exact ih ((x :: xs).drop n) b hb

theorem batch_list_flatten {α : Type} (xs : List α) :
    (batch_list xs 20).flatten = xs :=
  batchListAux_flatten 20 (by omega) xs.length xs (Nat.le_refl _)

theorem insertLoopAux_okOracle :
    ∀ (bs : List (List VectoredChunk)) (i : Nat) (w : World),
      insertLoopAux okOracle i w bs
        = ({ w with submitted :=
              w.submitted ++ bs.map (List.map EmbeddingDocument.from_vectored_chunk) },
           none) := by
  intro bs
  induction bs with
  | nil => intro i w; simp [insertLoopAux]
  | cons b bs ih =>
      intro i w
      have hpb : processInsertBatch w (b.map EmbeddingDocument.from_vectored_chunk)
          (okOracle i (b.map EmbeddingDocument.from_vectored_chunk))
            = ({ w with submitted :=
                  w.submitted ++ [b.map EmbeddingDocument.from_vectored_chunk] },
               none) := rfl
      show (match processInsertBatch w (b.map EmbeddingDocument.from_vectored_chunk)
          (okOracle i (b.map EmbeddingDocument.from_vectored_chunk)) with
        | (w', some errs) => (w', some errs)
        | (w', none) => insertLoopAux okOracle (i + 1) w' bs) = _
      rw [hpb]
      show insertLoopAux okOracle (i + 1) _ bs = _
      rw [ih]
      simp [List.append_assoc]

/-- The concrete list of 45 vectored chunks used in C5. -/
def fortyFiveChunks : List VectoredChunk :=
  (List.range 45).map (fun i =>
    { vector := []
      chunked_article :=
        { article := { metadata := { url := "u", title := "t" }, content := "c" }
          chunks := [] }
      chunk := { content := "c", metadata := { index := i, length := 1, hash := Nat.repr i } } })

/-- An empty observable world. -/
def emptyWorld : World :=
  { metadata_collection := []
    suggestions_collection := []
    recent_articles := { _id := "recent_articles", article_urls := [], max_size := 10 }
    metrics := {}
    logged := []
    submitted := []
    delete_requests := [] }

/-- C5: `insert_vectored_chunks` splits its input into consecutive order-preserving
batches of fixed size 20, the last batch holding the remainder, and submits one bulk
insert per batch; for an input of 45 units it issues exactly 3 batches of sizes 20,
20 and 5. -/
theorem C5_insert_batches (chunks : List VectoredChunk) (w : World) :
    ((batch_list chunks 20).flatten = chunks)
    ∧ (((batch_list chunks 20).dropLast).all (fun b => b.length == 20) = true)
    ∧ ((batch_list chunks 20).all
        (fun b => decide (0 < b.length) && decide (b.length ≤ 20)) = true)
    ∧ ((insert_vectored_chunks okOracle w chunks).1.submitted
        = w.submitted
            ++ (batch_list chunks 20).map (List.map EmbeddingDocument.from_vectored_chunk))
    ∧ ((insert_vectored_chunks okOracle w chunks).2 = none)
    ∧ (((insert_vectored_chunks okOracle emptyWorld fortyFiveChunks).1.submitted).map
          List.length = [20, 20, 5]) := by
  refine ⟨batch_list_flatten chunks, ?_, ?_, ?_, ?_, ?_⟩
  · rw [List.all_eq_true]
    intro b hb
    have := batchListAux_dropLast_sizes 20 chunks.length chunks b hb
    simp [this]
  · rw [List.all_eq_true]
    intro b hb
    have := batchListAux_sizes 20 (by omega) chunks.length chunks (Nat.le_refl _) b hb
    simp [this.1, this.2]
  · unfold insert_vectored_chunks
    rw [insertLoopAux_okOracle]
  · unfold insert_vectored_chunks
    rw [insertLoopAux_okOracle]
  · unfold insert_vectored_chunks
    rw [insertLoopAux_okOracle]
    show ((batch_list fortyFiveChunks 20).map
        (List.map EmbeddingDocument.from_vectored_chunk)).map List.length = [20, 20, 5]
    decide

/-! ### C3: duplicate-key tolerance -/

/-- The batch documents `insert_vectored_chunks` submits for a chunk list. -/
def batchDocs (chunks : List VectoredChunk) : List (List EmbeddingDocument) :=
  (batch_list chunks 20).map (List.map EmbeddingDocument.from_vectored_chunk)

/-- Total number of store errors reported over a run whose batches all succeed or
collide (the collision-metric increment of such a run). -/
def dupCollisions (oracle : Nat → List EmbeddingDocument → InsertResp) :
    Nat → List (List EmbeddingDocument) → Nat
  | _, [] => 0
  | i, b :: bs => (oracle i b).errors.length + dupCollisions oracle (i + 1) bs

/-- The existing-chunk log records produced over a run whose batches all succeed or
collide: per colliding batch, the documents absent from `insertedIds`, with the
vector stripped. -/
def dupLogs (oracle : Nat → List EmbeddingDocument → InsertResp) :
    Nat → List (List EmbeddingDocument) → List LoggedDocument
  | _, [] => []
  | i, b :: bs =>
      (if ((oracle i b).errors.filter (fun e => e.errorCode == dupCode)).isEmpty then []
       else (b.filter (fun d => !((oracle i b).insertedIds.contains d._id))).map stripVector)
      ++ dupLogs oracle (i + 1) bs

theorem processInsertBatch_dupOnly (w : World) (docs : List EmbeddingDocument)
    (resp : InsertResp) (h : ∀ e ∈ resp.errors, e.errorCode = dupCode) :
    processInsertBatch w docs resp
      = ({ w with
            submitted := w.submitted ++ [docs]
            metrics := { w.metrics with
              chunk_collision := w.metrics.chunk_collision + resp.errors.length }
            logged := w.logged ++
              (if (resp.errors.filter (fun e => e.errorCode == dupCode)).isEmpty then []
               else (docs.filter
                  (fun d => !(resp.insertedIds.contains d._id))).map stripVector) },
         none) := by
  have hfe : resp.errors.filter (fun e => e.errorCode == dupCode) = resp.errors :=
    List.filter_eq_self.mpr (fun e he => by rw [h e he]; exact beq_self_eq_true _)
  unfold processInsertBatch
  cases herr : resp.errors with
  | nil =>
      rw [herr] at hfe
      simp [List.isEmpty]
  | cons e es =>
      rw [herr] at hfe
      simp [hfe, List.isEmpty]

theorem insertLoopAux_dupOnly (oracle : Nat → List EmbeddingDocument → InsertResp)
    (hdup : ∀ i docs e, e ∈ (oracle i docs).errors → e.errorCode = dupCode) :
    ∀ (bs : List (List VectoredChunk)) (i : Nat) (w : World),
      insertLoopAux oracle i w bs
        = ({ w with
              submitted := w.submitted
                ++ bs.map (List.map EmbeddingDocument.from_vectored_chunk)
              metrics := { w.metrics with
                chunk_collision := w.metrics.chunk_collision
                  + dupCollisions oracle i
                      (bs.map (List.map EmbeddingDocument.from_vectored_chunk)) }
              logged := w.logged ++ dupLogs oracle i
                  (bs.map (List.map EmbeddingDocument.from_vectored_chunk)) },
           none) := by
  intro bs
  induction bs with
  | nil =>
      intro i w
      simp [insertLoopAux, dupCollisions, dupLogs]
  | cons b bs ih =>
      intro i w
      have hpb := processInsertBatch_dupOnly w
        (b.map EmbeddingDocument.from_vectored_chunk)
        (oracle i (b.map EmbeddingDocument.from_vectored_chunk))
        (hdup i (b.map EmbeddingDocument.from_vectored_chunk))
      show (match processInsertBatch w (b.map EmbeddingDocument.from_vectored_chunk)
          (oracle i (b.map EmbeddingDocument.from_vectored_chunk)) with
        | (w', some errs) => (w', some errs)
        | (w', none) => insertLoopAux oracle (i + 1) w' bs) = _
      rw [hpb]
      show insertLoopAux oracle (i + 1) _ bs = _
      rw [ih]
      simp only [List.map_cons, dupCollisions, dupLogs]
      simp [List.append_assoc, Nat.add_assoc]

/-- One unit of content-addressed test data: hash `"h" ++ i`. -/
def scenarioChunk (i : Nat) : VectoredChunk :=
  { vector := [Int.ofNat i]
    chunked_article :=
      { article := { metadata := { url := "u", title := "t" }, content := "c" }
        chunks := [] }
    chunk := { content := "c"
               metadata := { index := i, length := 1, hash := "h" ++ Nat.repr i } } }

/-- A single batch of 20 units, of which the first (`"h0"`) already exists in the
store. -/
def scenarioChunks : List VectoredChunk := (List.range 20).map scenarioChunk

def scenarioDocs : List EmbeddingDocument :=
  scenarioChunks.map EmbeddingDocument.from_vectored_chunk

/-- A store that already holds `"h0"` and otherwise behaves per §6. -/
def scenarioOracle : Nat → List EmbeddingDocument → InsertResp :=
  fun _ docs => (storeInsertMany ["h0"] docs).2

/-- C3: when every store error of a run is `DOCUMENT_ALREADY_EXISTS`, the insert
does not abort: it submits every batch, increments the collision metric by the
number of such errors, and logs each document whose `_id` is absent from the
response's `insertedIds` with its vector field removed; concretely, a batch with one
already-existing unit among 19 new units completes, persists the 19 new units,
counts one collision and logs only the stripped duplicate. -/
theorem C3_insert_tolerates_duplicates
    (oracle : Nat → List EmbeddingDocument → InsertResp) (w : World)
    (chunks : List VectoredChunk)
    (hdup : ∀ i docs e, e ∈ (oracle i docs).errors → e.errorCode = dupCode) :
    ((insert_vectored_chunks oracle w chunks).2 = none)
    ∧ ((insert_vectored_chunks oracle w chunks).1.submitted
        = w.submitted ++ batchDocs chunks)
    ∧ ((insert_vectored_chunks oracle w chunks).1.metrics.chunk_collision
        = w.metrics.chunk_collision + dupCollisions oracle 0 (batchDocs chunks))
    ∧ ((insert_vectored_chunks oracle w chunks).1.logged
        = w.logged ++ dupLogs oracle 0 (batchDocs chunks))
    ∧ ((insert_vectored_chunks scenarioOracle emptyWorld scenarioChunks).2 = none)
    ∧ ((storeInsertMany ["h0"] scenarioDocs).1 = scenarioDocs.map (fun d => d._id))
    ∧ ((storeInsertMany ["h0"] scenarioDocs).2.insertedIds.length = 19)
    ∧ ((insert_vectored_chunks scenarioOracle emptyWorld
          scenarioChunks).1.metrics.chunk_collision = 1)
    ∧ ((insert_vectored_chunks scenarioOracle emptyWorld scenarioChunks).1.logged
        = [{ _id := "h0", content := "c" }])
    ∧ ((insert_vectored_chunks scenarioOracle emptyWorld scenarioChunks).1.submitted
        = [scenarioDocs]) := by
  have hrun := insertLoopAux_dupOnly oracle hdup (batch_list chunks 20) 0 w
  refine ⟨?_, ?_, ?_, ?_, by decide, by decide, by decide, by decide, by decide,
    by decide⟩
  · unfold insert_vectored_chunks
    rw [hrun]
  · unfold insert_vectored_chunks batchDocs
    rw [hrun]
  · unfold insert_vectored_chunks batchDocs
    rw [hrun]
  · unfold insert_vectored_chunks batchDocs
    rw [hrun]

/-- Witness for C3: the error-free oracle trivially reports only duplicate causes. -/
theorem C3_insert_tolerates_duplicates_witness :
    (insert_vectored_chunks okOracle emptyWorld []).2 = none ∧
      (insert_vectored_chunks scenarioOracle emptyWorld
        scenarioChunks).1.metrics.chunk_collision = 1 :=
  have h := C3_insert_tolerates_duplicates okOracle emptyWorld []
    (fun i docs e he => by simp [okOracle] at he)
  ⟨h.1, h.2.2.2.2.2.2.2.1⟩

/-! ### C4: abort on any other error -/

theorem processInsertBatch_submitted (w : World) (docs : List EmbeddingDocument)
    (resp : InsertResp) :
    (processInsertBatch w docs resp).1.submitted = w.submitted ++ [docs] := by
  unfold processInsertBatch
  dsimp only
  split <;> split <;> rfl

theorem processInsertBatch_abort (w : World) (docs : List EmbeddingDocument)
    (resp : InsertResp)
    (hne : resp.errors.length
      ≠ (resp.errors.filter (fun e => e.errorCode == dupCode)).length) :
    (processInsertBatch w docs resp).2 = some resp.errors := by
  have hb : (resp.errors.length
      != (resp.errors.filter (fun e => e.errorCode == dupCode)).length) = true :=
    bne_iff_ne.mpr hne
  unfold processInsertBatch
  simp [hb]

theorem insertLoopAux_abort (oracle : Nat → List EmbeddingDocument → InsertResp) :
    ∀ (bs : List (List VectoredChunk)) (j i : Nat) (w : World),
      j < bs.length →
      (∀ k, k < j → ∀ e ∈ (oracle (i + k) ((bs.getD k []).map
          EmbeddingDocument.from_vectored_chunk)).errors, e.errorCode = dupCode) →
      (∃ e ∈ (oracle (i + j) ((bs.getD j []).map
          EmbeddingDocument.from_vectored_chunk)).errors, e.errorCode ≠ dupCode) →
      ((insertLoopAux oracle i w bs).2
          = some ((oracle (i + j) ((bs.getD j []).map
              EmbeddingDocument.from_vectored_chunk)).errors))
      ∧ ((insertLoopAux oracle i w bs).1.submitted
          = w.submitted
              ++ (bs.map (List.map EmbeddingDocument.from_vectored_chunk)).take (j + 1)) := by
  intro bs
  induction bs with
  | nil =>
      intro j i w hj _ _
      exact absurd hj (by simp)
  | cons b bs ih =>
      intro j i w hj hprev hbad
      cases j with
      | zero =>
          have hbad0 : ∃ e ∈ (oracle i (b.map
              EmbeddingDocument.from_vectored_chunk)).errors, e.errorCode ≠ dupCode := by
            simpa using hbad
          set docs := b.map EmbeddingDocument.from_vectored_chunk with hdocs
          set resp := oracle i docs with hresp
          have hne : resp.errors.length
              ≠ (resp.errors.filter (fun e => e.errorCode == dupCode)).length := by
            rw [← List.countP_eq_length_filter]
            intro heq
            rcases hbad0 with ⟨e, he, hcode⟩
            exact hcode (eq_of_beq (List.countP_eq_length.mp heq.symm e he))
          have h1 := processInsertBatch_submitted w docs resp
          have h2 := processInsertBatch_abort w docs resp hne
          rcases hp : processInsertBatch w docs resp with ⟨w', o⟩
          rw [hp] at h1 h2
          simp only at h1 h2
          subst h2
          constructor
          · show (match processInsertBatch w docs resp with
              | (w', some errs) => (w', some errs)
              | (w', none) => insertLoopAux oracle (i + 1) w' bs).2 = _
            rw [hp]
            simp
          · show (match processInsertBatch w docs resp with
              | (w', some errs) => (w', some errs)
              | (w', none) => insertLoopAux oracle (i + 1) w' bs).1.submitted = _
            rw [hp]
            simpa using h1
      | succ j =>
          have hd0 : ∀ e ∈ (oracle i (b.map
              EmbeddingDocument.from_vectored_chunk)).errors, e.errorCode = dupCode := by
            have := hprev 0 (Nat.succ_pos j)
            simpa using this
          have hpb := processInsertBatch_dupOnly w
            (b.map EmbeddingDocument.from_vectored_chunk)
            (oracle i (b.map EmbeddingDocument.from_vectored_chunk)) hd0
          have harith : ∀ k : Nat, (i + 1) + k = i + (k + 1) := by omega
          have hj' := Nat.lt_of_succ_lt_succ hj
          have hprev' : ∀ k, k < j → ∀ e ∈ (oracle ((i + 1) + k) ((bs.getD k []).map
              EmbeddingDocument.from_vectored_chunk)).errors, e.errorCode = dupCode := by
            intro k hk
            have := hprev (k + 1) (Nat.succ_lt_succ hk)
            rw [harith k]
            simpa using this
          have hbad' : ∃ e ∈ (oracle ((i + 1) + j) ((bs.getD j []).map
              EmbeddingDocument.from_vectored_chunk)).errors, e.errorCode ≠ dupCode := by
            rw [harith j]
            simpa using hbad
          show (match processInsertBatch w (b.map EmbeddingDocument.from_vectored_chunk)
              (oracle i (b.map EmbeddingDocument.from_vectored_chunk)) with
            | (w', some errs) => (w', some errs)
            | (w', none) => insertLoopAux oracle (i + 1) w' bs).2 = _
            ∧ (match processInsertBatch w (b.map EmbeddingDocument.from_vectored_chunk)
              (oracle i (b.map EmbeddingDocument.from_vectored_chunk)) with
            | (w', some errs) => (w', some errs)
            | (w', none) => insertLoopAux oracle (i + 1) w' bs).1.submitted = _
          rw [hpb]
          constructor
          · show (insertLoopAux oracle (i + 1) _ bs).2 = _
            rw [(ih j (i + 1) _ hj' hprev' hbad').1, harith j]
            simp
          · show (insertLoopAux oracle (i + 1) _ bs).1.submitted = _
            rw [(ih j (i + 1) _ hj' hprev' hbad').2]
            simp [List.append_assoc]

/-- C4: a batch response containing any error whose cause is not
`DOCUMENT_ALREADY_EXISTS` aborts the whole insert immediately with the complete
error payload of that batch; no later batch is submitted, and the batches already
submitted stay applied (no rollback). -/
theorem C4_insert_aborts_on_other_error
    (oracle : Nat → List EmbeddingDocument → InsertResp) (w : World)
    (chunks : List VectoredChunk) (j : Nat)
    (hj : j < (batch_list chunks 20).length)
    (hprev : ∀ k, k < j → ∀ e ∈ (oracle k (((batch_list chunks 20).getD k []).map
        EmbeddingDocument.from_vectored_chunk)).errors, e.errorCode = dupCode)
    (hbad : ∃ e ∈ (oracle j (((batch_list chunks 20).getD j []).map
        EmbeddingDocument.from_vectored_chunk)).errors, e.errorCode ≠ dupCode) :
    ((insert_vectored_chunks oracle w chunks).2
        = some ((oracle j (((batch_list chunks 20).getD j []).map
            EmbeddingDocument.from_vectored_chunk)).errors))
    ∧ ((insert_vectored_chunks oracle w chunks).1.submitted
        = w.submitted ++ (batchDocs chunks).take (j + 1)) := by
  have hloop := insertLoopAux_abort oracle (batch_list chunks 20) j 0 w hj
    (fun k hk => by have := hprev k hk; simpa using this)
    (by simpa using hbad)
  rcases hl : insertLoopAux oracle 0 w (batch_list chunks 20) with ⟨w', o⟩
  rw [hl] at hloop
  simp only at hloop
  rcases hloop with ⟨ho, hsub⟩
  subst ho
  constructor
  · show (match insertLoopAux oracle 0 w (batch_list chunks 20) with
      | (w', none) => _
      | (w', some e) => (w', some e)).2 = _
    rw [hl]
    simp
  · show (match insertLoopAux oracle 0 w (batch_list chunks 20) with
      | (w', none) => _
      | (w', some e) => (w', some e)).1.submitted = _
    rw [hl]
    simpa [batchDocs] using hsub

def badOracle : Nat → List EmbeddingDocument → InsertResp :=
  fun _ _ => { insertedIds := []
               errors := [{ errorCode := "SERVER_ERROR", message := "boom" }] }

/-- Witness for C4: a one-batch run against a store reporting a non-duplicate
  error. -/
theorem C4_insert_aborts_on_other_error_witness :
    (insert_vectored_chunks badOracle emptyWorld [scenarioChunk 0]).2
      = some [{ errorCode := "SERVER_ERROR", message := "boom" }] :=
  (C4_insert_aborts_on_other_error badOracle emptyWorld [scenarioChunk 0] 0
    (by decide)
    (fun k hk => (Nat.not_lt_zero k hk).elim)
    ⟨{ errorCode := "SERVER_ERROR", message := "boom" }, by decide, by decide⟩).1

/-! ### C6: vectorization pairing -/

/-- C6: assuming the embedding service returns exactly one vector per input text in
input order, `vectorize_diff` pairs the i-th vector with the i-th new chunk, keeps
the new-chunk list's count and order, and passes `deleted_chunks` through
unchanged. -/
theorem C6_vectorize_diff_pairing (f : List String → List (List Int))
    (d : ChunkedArticleDiff)
    (hlen : (f (d.new_chunks.map (fun c => c.content))).length = d.new_chunks.length) :
    ((vectorize_diff f d).new_chunks.map (fun v => v.chunk) = d.new_chunks)
    ∧ ((vectorize_diff f d).new_chunks.map (fun v => v.vector)
        = f (d.new_chunks.map (fun c => c.content)))
    ∧ ((vectorize_diff f d).new_chunks.length = d.new_chunks.length)
    ∧ ((vectorize_diff f d).deleted_chunks = d.deleted_chunks) := by
  refine ⟨?_, ?_, ?_, rfl⟩
  · show (((f (d.new_chunks.map (fun c => c.content))).zip d.new_chunks).map _).map _ = _
    rw [List.map_map]
    exact List.map_snd_zip _ d.new_chunks (Nat.le_of_eq hlen.symm)
  · show (((f (d.new_chunks.map (fun c => c.content))).zip d.new_chunks).map _).map _ = _
    rw [List.map_map]
    exact List.map_fst_zip _ d.new_chunks (Nat.le_of_eq hlen)
  · show (((f (d.new_chunks.map (fun c => c.content))).zip d.new_chunks).map _).length = _
    rw [List.length_map, List.length_zip, hlen]
    exact Nat.min_self _

/-- Witness for C6: a constant per-text embedding over a one-chunk diff. -/
theorem C6_vectorize_diff_pairing_witness :
    ((vectorize_diff (fun l => l.map (fun _ => ([] : List Int)))
        { chunked_article :=
            { article := { metadata := { url := "u", title := "t" }, content := "a" }
              chunks := [] }
          new_chunks := [{ content := "a"
                           metadata := { index := 0, length := 1, hash := "h1" } }]
          deleted_chunks := [{ index := 1, length := 1, hash := "h2" }]
          unchanged_chunks := [] }).new_chunks.map (fun v => v.chunk)
      = [{ content := "a", metadata := { index := 0, length := 1, hash := "h1" } }]) :=
  (C6_vectorize_diff_pairing (fun l => l.map (fun _ => ([] : List Int)))
    { chunked_article :=
        { article := { metadata := { url := "u", title := "t" }, content := "a" }
          chunks := [] }
      new_chunks := [{ content := "a"
                       metadata := { index := 0, length := 1, hash := "h1" } }]
      deleted_chunks := [{ index := 1, length := 1, hash := "h2" }]
      unchanged_chunks := [] } rfl).1

/-! ### C7: metadata upsert -/

theorem find?_map_replace {β : Type} (d : List (String × β)) (k : String) (v : β)
    (h : d.any (fun p => p.1 == k) = true) :
    (d.map (fun p => if p.1 == k then (k, v) else p)).find? (fun p => p.1 == k)
      = some (k, v) := by
  induction d with
  | nil => simp at h
  | cons p d ih =>
      by_cases hp : (p.1 == k) = true
      · show List.find? (fun p => p.1 == k)
          ((if (p.1 == k) = true then (k, v) else p)
            :: d.map (fun p => if p.1 == k then (k, v) else p)) = some (k, v)
        rw [if_pos hp]
        exact List.find?_cons_of_pos _ (by simp)
      · have h' : d.any (fun p => p.1 == k) = true := by
          simpa [hp] using h
        show List.find? (fun p => p.1 == k)
          ((if (p.1 == k) = true then (k, v) else p)
            :: d.map (fun p => if p.1 == k then (k, v) else p)) = some (k, v)
        rw [if_neg hp, List.find?_cons_of_neg _ (by simpa using hp)]
        exact ih h'

theorem dictFind_dictInsert_self {β : Type} (d : List (String × β)) (k : String)
    (v : β) :
    dictFind (dictInsert d k v) k = some v := by
  unfold dictInsert
  by_cases h : dictHasKey d k
  · rw [if_pos h]
    unfold dictFind
    rw [find?_map_replace d k v h]
    rfl
  · rw [if_neg h]
    have hfalse : dictHasKey d k = false := by
      cases hk : dictHasKey d k
      · rfl
      · exact absurd hk h
    have hnone : d.find? (fun p => p.1 == k) = none := by
      rw [List.find?_eq_none]
      intro p hp hb
      unfold dictHasKey at hfalse
      rw [List.any_eq_false] at hfalse
      exact hfalse p hp hb
    unfold dictFind
    rw [List.find?_append, hnone]
    simp [List.find?_cons]

theorem mem_map_filter_partition {α β : Type} (l : List α) (p : α → Bool)
    (f : α → β) (y : β) :
    (y ∈ (l.filter (fun x => !p x)).map f ++ (l.filter p).map f) ↔ y ∈ l.map f := by
  constructor
  · intro hm
    rcases List.mem_append.mp hm with hm | hm <;>
      · rcases List.mem_map.mp hm with ⟨c, hc, rfl⟩
        exact List.mem_map.mpr ⟨c, (List.mem_filter.mp hc).1, rfl⟩
  · intro hm
    rcases List.mem_map.mp hm with ⟨c, hc, rfl⟩
    cases hp : p c
    · exact List.mem_append.mpr
        (Or.inl (List.mem_map.mpr ⟨c, List.mem_filter.mpr ⟨hc, by simp [hp]⟩, rfl⟩))
    · exact List.mem_append.mpr
        (Or.inr (List.mem_map.mpr ⟨c, List.mem_filter.mpr ⟨hc, hp⟩, rfl⟩))

/-- C7: `update_article_metadata` stores, under the item's identity and with
insert-or-replace semantics, the snapshot of the full current unit set (whose hash
keys are exactly the hashes of added ∪ unchanged units); the stored value is the
same whatever the collection held before, so nothing is merged with the previous
snapshot. -/
theorem C7_update_article_metadata_upsert (w₁ w₂ : World) (a : ChunkedArticle)
    (prev : Option ChunkedArticleMetadataOnly) (f : List String → List (List Int)) :
    (dictFind (update_article_metadata w₁
          (vectorize_diff f (calc_chunk_diff a prev))).metadata_collection
        (ChunkedArticleMetadataOnly.from_vectored_diff
          (vectorize_diff f (calc_chunk_diff a prev)))._id
      = some (ChunkedArticleMetadataOnly.from_vectored_diff
          (vectorize_diff f (calc_chunk_diff a prev))))
    ∧ (dictFind (update_article_metadata w₂
          (vectorize_diff f (calc_chunk_diff a prev))).metadata_collection
        (ChunkedArticleMetadataOnly.from_vectored_diff
          (vectorize_diff f (calc_chunk_diff a prev)))._id
      = dictFind (update_article_metadata w₁
          (vectorize_diff f (calc_chunk_diff a prev))).metadata_collection
        (ChunkedArticleMetadataOnly.from_vectored_diff
          (vectorize_diff f (calc_chunk_diff a prev)))._id)
    ∧ (∀ h : String,
        dictHasKey (ChunkedArticleMetadataOnly.from_vectored_diff
            (vectorize_diff f (calc_chunk_diff a prev))).chunks_metadata h = true
          ↔ h ∈ hashesOf (calc_chunk_diff a prev).new_chunks
              ++ hashesOf (calc_chunk_diff a prev).unchanged_chunks) := by
  have hcol : ∀ w : World, (update_article_metadata w
      (vectorize_diff f (calc_chunk_diff a prev))).metadata_collection
        = dictInsert w.metadata_collection
            (ChunkedArticleMetadataOnly.from_vectored_diff
              (vectorize_diff f (calc_chunk_diff a prev)))._id
            (ChunkedArticleMetadataOnly.from_vectored_diff
              (vectorize_diff f (calc_chunk_diff a prev))) := fun w => rfl
  refine ⟨?_, ?_, ?_⟩
  · rw [hcol w₁]
    exact dictFind_dictInsert_self _ _ _
  · rw [hcol w₁, hcol w₂, dictFind_dictInsert_self, dictFind_dictInsert_self]
  · intro h
    have hca : (vectorize_diff f (calc_chunk_diff a prev)).chunked_article = a := by
      cases prev <;> rfl
    have hbase : dictHasKey (ChunkedArticleMetadataOnly.from_vectored_diff
        (vectorize_diff f (calc_chunk_diff a prev))).chunks_metadata h = true
          ↔ h ∈ hashesOf a.chunks := by
      show dictHasKey (ChunkedArticleMetadataOnly.from_chunked_article
        (vectorize_diff f (calc_chunk_diff a prev)).chunked_article).chunks_metadata h
          = true ↔ h ∈ hashesOf a.chunks
      rw [hca]
      exact dictHasKey_from_chunked_article a h
    rw [hbase]
    cases prev with
    | none =>
        show h ∈ hashesOf a.chunks ↔ h ∈ hashesOf a.chunks ++ hashesOf []
        simp [hashesOf]
    | some p =>
        exact (mem_map_filter_partition a.chunks
          (fun c => dictHasKey p.chunks_metadata c.metadata.hash)
          (fun c => c.metadata.hash) h).symm

/-! ### C8: admission budget -/

theorem process_article_metadata_general :
    ∀ (ms : List ArticleMetadata) (p : AsyncPipeline),
      ((process_article_metadata p ms).1.admitted
        = p.admitted ++ ms.take (p.max_items - p.admitted.length))
      ∧ ((process_article_metadata p ms).2 = true
          ↔ ms.length ≤ p.max_items - p.admitted.length) := by
  intro ms
  induction ms with
  | nil =>
      intro p
      constructor
      · simp [process_article_metadata]
      · simp [process_article_metadata]
  | cons m ms ih =>
      intro p
      by_cases hlt : p.admitted.length < p.max_items
      · have hstep : put_to_first_step p m
            = ({ p with admitted := p.admitted ++ [m] }, true) := by
          unfold put_to_first_step
          rw [if_pos hlt]
        have hrec := ih { p with admitted := p.admitted ++ [m] }
        have hshow : process_article_metadata p (m :: ms)
            = process_article_metadata { p with admitted := p.admitted ++ [m] } ms := by
          show (match put_to_first_step p m with
            | (p', true) => process_article_metadata p' ms
            | (p', false) => (p', false)) = _
          rw [hstep]
        rw [hshow]
        have hsub : p.max_items - (p.admitted ++ [m]).length
            = (p.max_items - p.admitted.length) - 1 := by
          simp only [List.length_append, List.length_cons, List.length_nil]
          omega
        constructor
        · rw [hrec.1]
          simp only [hsub]
          have htake : m :: ms.take ((p.max_items - p.admitted.length) - 1)
              = (m :: ms).take (p.max_items - p.admitted.length) := by
            conv_rhs => rw [show p.max_items - p.admitted.length
                = ((p.max_items - p.admitted.length) - 1) + 1 from by omega]
            rw [List.take_succ_cons]
          rw [← htake]
          simp [List.append_assoc]
        · rw [hrec.2]
          simp only [hsub, List.length_cons]
          omega
      · have hstep : put_to_first_step p m = (p, false) := by
          unfold put_to_first_step
          rw [if_neg hlt]
        have hshow : process_article_metadata p (m :: ms) = (p, false) := by
          show (match put_to_first_step p m with
            | (p', true) => process_article_metadata p' ms
            | (p', false) => (p', false)) = _
          rw [hstep]
        rw [hshow]
        have hz : p.max_items - p.admitted.length = 0 := by omega
        constructor
        · simp [hz]
        · simp [hz]

/-- C8: starting from a fresh pipeline, admission returns `true` for the first
`max_items` calls and `false` thereafter (one call succeeds exactly while the
admitted count is below the cap); `process_article_metadata` feeds items in list
order, stops at the first declined admission — so the admitted items are exactly
the first `max_items` of the list — returns `True` exactly when every item was
admitted, and the admitted items all reach the completed set. -/
theorem C8_admission_budget (max_items : Nat) (ms : List ArticleMetadata) :
    ((process_article_metadata { max_items := max_items, admitted := [] } ms).1.admitted
      = ms.take max_items)
    ∧ ((process_article_metadata { max_items := max_items, admitted := [] } ms).2 = true
        ↔ ms.length ≤ max_items)
    ∧ (completedItems
        (process_article_metadata { max_items := max_items, admitted := [] } ms).1
      = ms.take max_items)
    ∧ (∀ (p : AsyncPipeline) (m : ArticleMetadata),
        (put_to_first_step p m).2 = true ↔ p.admitted.length < p.max_items) := by
  have hgen := process_article_metadata_general ms
    { max_items := max_items, admitted := [] }
  refine ⟨?_, ?_, ?_, ?_⟩
  · have := hgen.1
    simpa using this
  · have := hgen.2
    simpa using this
  · show (process_article_metadata
        { max_items := max_items, admitted := [] } ms).1.admitted = ms.take max_items
    have := hgen.1
    simpa using this
  · intro p m
    unfold put_to_first_step
    by_cases hlt : p.admitted.length < p.max_items
    · rw [if_pos hlt]
      simpa using hlt
    · rw [if_neg hlt]
      simpa using hlt

/-! ### C10: the store stage returns its input diff unchanged -/

/-- C10: `store_article_diff` either completes and hands back exactly the
`VectoredChunkedArticleDiff` it was given, or aborts with an insert error; the diff
value itself is never altered (only the world — store collections, log, metrics —
changes). -/
theorem C10_store_article_diff_returns_input
    (oracle : Nat → List EmbeddingDocument → InsertResp) (w : World)
    (article_diff : VectoredChunkedArticleDiff) :
    ((store_article_diff oracle w article_diff).2 = Except.ok article_diff)
    ∨ (∃ e, (store_article_diff oracle w article_diff).2 = Except.error e) := by
  rcases h : insert_vectored_chunks oracle w article_diff.new_chunks with ⟨w1, o⟩
  cases o with
  | none =>
      left
      show (match insert_vectored_chunks oracle w article_diff.new_chunks with
        | (w1, some e) => (w1, Except.error e)
        | (w1, none) => _).2 = Except.ok article_diff
      rw [h]
  | some e =>
      right
      refine ⟨e, ?_⟩
      show (match insert_vectored_chunks oracle w article_diff.new_chunks with
        | (w1, some e) => (w1, Except.error e)
        | (w1, none) => _).2 = Except.error e
      rw [h]

end WikiChat
